import Mathlib

/-!
Verification of the puzzle-runner core: a shallow embedding of the
phrase-puzzle model (`src/puzzle.js`), the avatar physics (`src/player.js`),
the obstacle collision test (`src/obstacle.js`) and the guess-submission /
tick-ordering slices of the main game file (`src/world.js`), together with
theorems settling the specification's claims about them.

Strings are embedded as `List Char`; JS numbers used by the physics are
embedded as `ℚ` (the code only adds, compares and halves them, so exact
rational arithmetic matches the floating-point source on all inputs of
interest).  Mutating methods are embedded as state-passing functions.
-/

/-- State of the text-mode `Puzzle` object (`src/puzzle.js`).
`originalPhrase` is the constructor argument, `pieces` the result of
`splitPhrase`, `collectedPieces` the parallel boolean array. -/
structure Puzzle where
  originalPhrase : List Char
  pieces : List Char
  collectedPieces : List Bool
  deriving DecidableEq, Repr

/-- `Puzzle.splitPhrase`: `phrase.split('')` splits into individual
characters; on our `List Char` embedding of strings it is the identity. -/
def splitPhrase (phrase : List Char) : List Char :=
  phrase

/-- `Puzzle.autoCollectSpaces`: for every index, if the piece is `' '`
the parallel collected entry is set to `true`. -/
def autoCollectSpaces (pieces : List Char) (collected : List Bool) : List Bool :=
  List.zipWith (fun p c => if p = ' ' then true else c) pieces collected

/-- The `Puzzle` constructor: split the phrase, initialise
`collectedPieces` to all-`false`, then auto-collect spaces. -/
def mkPuzzle (phrase : List Char) : Puzzle :=
  let pieces := splitPhrase phrase
  { originalPhrase := phrase
    pieces := pieces
    collectedPieces := autoCollectSpaces pieces (List.replicate pieces.length false) }

/-- The `forEach` loop inside `Puzzle.collectPiece`: walk `pieces` and the
parallel `collectedPieces`, marking every entry equal to `target` that is
not yet collected; the second component is the `newlyCollected` flag. -/
def collectScan (target : Char) : List Char → List Bool → List Bool × Bool
  | p :: ps, c :: cs =>
    let rest := collectScan target ps cs
    if p = target ∧ c = false then (true :: rest.1, true)
    else (c :: rest.1, rest.2)
  | _, cs => (cs, false)

/-- `Puzzle.collectPiece(index)`: out-of-range indices are rejected, then
every piece equal to `pieces[index]` is collected; returns the updated
state and the `newlyCollected` result.  (The JS `target == null` guard is
the `none` branch; it is unreachable for in-range indices.) -/
def collectPiece (pz : Puzzle) (index : Int) : Puzzle × Bool :=
  if index < 0 ∨ (pz.pieces.length : Int) ≤ index then (pz, false)
  else
    match pz.pieces[index.toNat]? with
    | none => (pz, false)
    | some target =>
      let r := collectScan target pz.pieces pz.collectedPieces
      ({ pz with collectedPieces := r.1 }, r.2)

/-- `Puzzle.resetCollected`: every space entry is set collected, every
other entry reset to uncollected (index-aligned with `pieces`). -/
def resetCollected (pz : Puzzle) : Puzzle :=
  { pz with collectedPieces := pz.pieces.map (fun p => if p = ' ' then true else false) }

/-- `Puzzle.getReconstructedPhrase`: collected pieces shown as themselves,
uncollected ones as the placeholder `'_'`. -/
def getReconstructedPhrase (pz : Puzzle) : List Char :=
  List.zipWith (fun p c => if c then p else '_') pz.pieces pz.collectedPieces

/-- `Puzzle.isComplete`: every entry of `collectedPieces` is `true`. -/
def Puzzle.isComplete (pz : Puzzle) : Bool :=
  pz.collectedPieces.all (fun c => c)

/-- `Puzzle.getCollectedCount`: number of `true` entries of `collectedPieces`. -/
def getCollectedCount (pz : Puzzle) : Nat :=
  (pz.collectedPieces.filter (fun c => c)).length

/-- `Puzzle.getTotalCount`. -/
def getTotalCount (pz : Puzzle) : Nat :=
  pz.pieces.length

/-- The `forEach` loop of `Puzzle.getUniqueNonSpaceIndices`: `seen` is the
set of already-seen characters (the JS `Set`, embedded as a list), `i` the
current absolute index. -/
def uniqueScan (seen : List Char) (i : Nat) : List Char → List Nat
  | [] => []
  | p :: ps =>
    if p ≠ ' ' ∧ p ∉ seen then i :: uniqueScan (p :: seen) (i + 1) ps
    else uniqueScan seen (i + 1) ps

/-- `Puzzle.getUniqueNonSpaceIndices`: one index per distinct non-space
character, pushed at its first occurrence. -/
def getUniqueNonSpaceIndices (pz : Puzzle) : List Nat :=
  uniqueScan [] 0 pz.pieces

/-- Measure used by the spec: the number of indices holding character `t`
that are not yet collected (counted over the aligned prefix). -/
def countNewly (t : Char) (ps : List Char) (cs : List Bool) : Nat :=
  (List.zipWith (fun p c => if p = t ∧ c = false then (1 : Nat) else 0) ps cs).sum

/-- `submitGuess` in `src/world.js` marks the whole puzzle collected on a
correct guess; we record the resulting puzzle state together with whether
the victory transition (`setTimeout(showVictory, 300)`) was taken. -/
structure GuessOutcome where
  puzzle : Puzzle
  victory : Bool
  deriving DecidableEq, Repr

/-- The JS `String.prototype.trim()` used on the guess input: strip
whitespace from both ends. -/
def jsTrim (s : List Char) : List Char :=
  ((s.dropWhile Char.isWhitespace).reverse.dropWhile Char.isWhitespace).reverse

/-- The JS `String.prototype.toLowerCase()` used by the guess comparison,
character by character. -/
def toLowerStr (s : List Char) : List Char :=
  s.map Char.toLower

/-- `submitGuess` (`src/world.js`): trim the input; an empty trimmed guess
is ignored; a case-insensitive match against `originalPhrase` marks every
piece collected and triggers the victory transition; otherwise nothing in
the puzzle changes. -/
def submitGuess (pz : Puzzle) (input : List Char) : GuessOutcome :=
  let guess := jsTrim input
  if guess = [] then { puzzle := pz, victory := false }
  else if toLowerStr guess = toLowerStr pz.originalPhrase then
    { puzzle := { pz with collectedPieces := pz.pieces.map (fun _ => true) }
      victory := true }
  else { puzzle := pz, victory := false }

/-- A sequence of `collectPiece` calls, applied left to right (the game
performs such a sequence between construction and a reset). -/
def applyCollects (pz : Puzzle) (ops : List Int) : Puzzle :=
  ops.foldl (fun q i => (collectPiece q i).1) pz

/-- The avatar (`src/player.js`): the fields mutated or read by `update`,
`flap` and `isOutOfBounds`.  `x`, colors and animation state are omitted
(never read by those methods). -/
structure Player where
  y : ℚ
  velocityY : ℚ
  gravity : ℚ
  flapStrength : ℚ
  deriving DecidableEq, Repr

/-- `this.height = 40` set by the `Player` constructor. -/
def playerHeight : ℚ := 40

/-- `Player.update(canvasHeight)`: apply gravity to the velocity, add the
velocity to the position, then clamp to the top of the screen and then to
the bottom, zeroing the velocity whenever a clamp fires.  The two `if`
statements of the source are executed in order. -/
def Player.update (p : Player) (canvasHeight : ℚ) : Player :=
  let v := p.velocityY + p.gravity
  let y := p.y + v
  if y < 0 then
    -- first clamp fired: y = 0, velocityY = 0; then the second `if`
    if (0 : ℚ) + playerHeight > canvasHeight then
      { p with y := canvasHeight - playerHeight, velocityY := 0 }
    else
      { p with y := 0, velocityY := 0 }
  else
    if y + playerHeight > canvasHeight then
      { p with y := canvasHeight - playerHeight, velocityY := 0 }
    else
      { p with y := y, velocityY := v }

/-- `Player.flap()`: set the vertical velocity to the (negative) flap
strength. -/
def Player.flap (p : Player) : Player :=
  { p with velocityY := p.flapStrength }

/-- `Player.isOutOfBounds(canvasHeight)`. -/
def Player.isOutOfBounds (p : Player) (canvasHeight : ℚ) : Bool :=
  decide (p.y < 0) || decide (p.y + playerHeight > canvasHeight)

/-- The player constructed by `src/world.js`:
`new Player(PLAYER_X, canvasHeight / 2, { gravity, flapStrength, ... })`,
i.e. mid-height with zero initial velocity. -/
def initialPlayer (canvasHeight gravity flapStrength : ℚ) : Player :=
  { y := canvasHeight / 2
    velocityY := 0
    gravity := gravity
    flapStrength := flapStrength }

/-- One player input/tick action: a physics update or a flap. -/
inductive PlayerAct where
  | tick
  | flapAct
  deriving DecidableEq, Repr

/-- Run an interleaving of `update(canvasHeight)` and `flap()` calls. -/
def runActs (p : Player) (canvasHeight : ℚ) (acts : List PlayerAct) : Player :=
  acts.foldl (fun q a => match a with
    | PlayerAct.tick => q.update canvasHeight
    | PlayerAct.flapAct => q.flap) p

/-- Iterate `update` with no flaps. -/
def updateN (p : Player) (canvasHeight : ℚ) : Nat → Player
  | 0 => p
  | n + 1 => (updateN p canvasHeight n).update canvasHeight

/-- The per-tick ordering of `update()` in `src/world.js`: `player.update`
runs first, and `checkCollisions` (whose out-of-bounds branch calls
`player.isOutOfBounds`) runs afterwards in the same tick, with no
intervening write to the player's position.  This definition is that
composition: the value the out-of-bounds death branch tests. -/
def outOfBoundsAfterUpdate (p : Player) (canvasHeight : ℚ) : Bool :=
  (p.update canvasHeight).isOutOfBounds canvasHeight

/-- An axis-aligned bounding box as produced by `Player.getBounds()`. -/
structure Bounds where
  x : ℚ
  y : ℚ
  width : ℚ
  height : ℚ
  deriving DecidableEq, Repr

/-- An obstacle (`src/obstacle.js`): the constructor stores the gap
geometry and derives `topHeight`/`bottomY`/`bottomHeight`.  Of the theme
only the fact relevant to `collidesWith` is kept: whether
`theme.obstacles.type === 'asteroid'`. -/
structure Obstacle where
  x : ℚ
  canvasHeight : ℚ
  gapY : ℚ
  gapSize : ℚ
  width : ℚ
  topHeight : ℚ
  bottomY : ℚ
  bottomHeight : ℚ
  isAsteroid : Bool
  deriving DecidableEq, Repr

/-- The `Obstacle` constructor: `width = 60`,
`topHeight = gapY - gapSize / 2`, `bottomY = gapY + gapSize / 2`,
`bottomHeight = canvasHeight - bottomY`. -/
def mkObstacle (x canvasHeight gapY gapSize : ℚ) (isAsteroid : Bool) : Obstacle :=
  { x := x
    canvasHeight := canvasHeight
    gapY := gapY
    gapSize := gapSize
    width := 60
    topHeight := gapY - gapSize / 2
    bottomY := gapY + gapSize / 2
    bottomHeight := canvasHeight - (gapY + gapSize / 2)
    isAsteroid := isAsteroid }

/-- `Obstacle.collidesWith(bounds)`: horizontal overlap test, then the
standard top/bottom pipe test — except for asteroid-themed obstacles,
whose columns stop `30 + asteroidSize` short of the gap edges
(`asteroidSize = 35`). -/
def collidesWith (o : Obstacle) (b : Bounds) : Bool :=
  if b.x + b.width > o.x ∧ b.x < o.x + o.width then
    if o.isAsteroid then
      decide (b.y < o.topHeight - 30 - 35) || decide (b.y + b.height > o.bottomY + 30 + 35)
    else
      decide (b.y < o.topHeight) || decide (b.y + b.height > o.bottomY)
  else false

/-- Formalisation of claim C7's collision predicate, in the spec's words:
the box horizontally overlaps `[x, x + width]` and its top is above
`topHeight` or its bottom below `bottomY`. -/
def claimCollides (o : Obstacle) (b : Bounds) : Prop :=
  (b.x + b.width > o.x ∧ b.x < o.x + o.width) ∧
    (b.y < o.topHeight ∨ b.y + b.height > o.bottomY)

/-- Formalisation of claim C4's words: the payload with every whitespace
character shown as-is and every non-whitespace character replaced by the
placeholder. -/
def reconstructWhitespaceSpec (P : List Char) : List Char :=
  P.map (fun c => if c.isWhitespace then c else '_')

/-- A puzzle state in which index 0 is collected but its duplicate at
index 1 is not (the game's own operations never produce such a state, but
the claim quantifies over every state). -/
def pzNonuniform : Puzzle :=
  { originalPhrase := ['a', 'a'], pieces := ['a', 'a'], collectedPieces := [true, false] }

/-- Modelled from the spec's words for claim C5: the index of the first
occurrence of each distinct non-space character value, in order. -/
def firstOccurNonSpaceIndices (P : List Char) : List Nat :=
  (List.range P.length).filter
    (fun j => decide (P.getD j ' ' ≠ ' ' ∧ ∀ k, k < j → P.getD k ' ' ≠ P.getD j ' '))

/-- Modelled from claim C5's literal words ("non-whitespace"): the index
of the first occurrence of each distinct non-whitespace character value. -/
def firstOccurNonWhitespaceIndices (P : List Char) : List Nat :=
  (List.range P.length).filter
    (fun j => decide ((P.getD j ' ').isWhitespace = false ∧
        ∀ k, k < j → P.getD k ' ' ≠ P.getD j ' '))

/-! ### Lemmas about the collect loop -/

/-- The collected array produced by the collect loop: pointwise, an entry
becomes `true` exactly when its piece equals the target; entries beyond the
pieces array are untouched. -/
theorem collectScan_fst (t : Char) (ps : List Char) :
    ∀ cs : List Bool,
      (collectScan t ps cs).1
        = List.zipWith (fun p c => if p = t then true else c) ps cs ++ cs.drop ps.length := by
  induction ps with
  | nil => intro cs; simp [collectScan]
  | cons p ps ih =>
    intro cs
    cases cs with
    | nil => simp [collectScan]
    | cons c cs =>
      by_cases hp : p = t <;> cases c <;> simp [collectScan, hp, ih cs]

/-- The `newlyCollected` flag returned by the collect loop is `true` exactly
when some aligned entry holds the target and is uncollected. -/
theorem collectScan_snd (t : Char) (ps : List Char) :
    ∀ cs : List Bool,
      (collectScan t ps cs).2 = decide (0 < countNewly t ps cs) := by
  induction ps with
  | nil => intro cs; simp [collectScan, countNewly]
  | cons p ps ih =>
    intro cs
    cases cs with
    | nil => simp [collectScan, countNewly]
    | cons c cs =>
      by_cases hp : p = t <;> cases c <;> simp [collectScan, countNewly, hp, ih cs]

/-- Unfolding `countNewly` over a cons pair. -/
theorem countNewly_cons (t p : Char) (c : Bool) (ps : List Char) (cs : List Bool) :
    countNewly t (p :: ps) (c :: cs)
      = (if p = t ∧ c = false then 1 else 0) + countNewly t ps cs := by
  simp [countNewly]

/-- Collecting the target raises the true-count by exactly the number of
previously-uncollected entries holding the target. -/
theorem collectScan_count (t : Char) (ps : List Char) :
    ∀ cs : List Bool, cs.length = ps.length →
      ((List.zipWith (fun p c => if p = t then true else c) ps cs).filter (fun c => c)).length
        = (cs.filter (fun c => c)).length + countNewly t ps cs := by
  induction ps with
  | nil =>
    intro cs h
    have hnil : cs = [] := List.length_eq_zero.mp (by simpa using h)
    simp [hnil, countNewly]
  | cons p ps ih =>
    intro cs h
    cases cs with
    | nil => simp at h
    | cons c cs =>
      simp only [List.length_cons, Nat.succ.injEq] at h
      have ihc := ih cs h
      by_cases hp : p = t
      · cases c
        · rw [List.zipWith_cons_cons, if_pos hp, countNewly_cons, if_pos ⟨hp, rfl⟩,
            List.filter_cons_of_pos (by rfl), List.filter_cons_of_neg (by simp),
            List.length_cons, ihc]
          omega
        · rw [List.zipWith_cons_cons, if_pos hp, countNewly_cons, if_neg (by simp),
            List.filter_cons_of_pos (by rfl), List.filter_cons_of_pos (by rfl),
            List.length_cons, List.length_cons, ihc]
          omega
      · cases c
        · rw [List.zipWith_cons_cons, if_neg hp, countNewly_cons, if_neg (by tauto),
            List.filter_cons_of_neg (by simp), List.filter_cons_of_neg (by simp), ihc]
          omega
        · rw [List.zipWith_cons_cons, if_neg hp, countNewly_cons, if_neg (by tauto),
            List.filter_cons_of_pos (by rfl), List.filter_cons_of_pos (by rfl),
            List.length_cons, List.length_cons, ihc]
          omega

/-- Every aligned entry holding the target is collected after the loop. -/
theorem collectScan_marks (t : Char) (ps : List Char) :
    ∀ (cs : List Bool) (j : Nat), j < ps.length → j < cs.length →
      ps.getD j ' ' = t →
      (List.zipWith (fun p c => if p = t then true else c) ps cs).getD j false = true := by
  induction ps with
  | nil => intro cs j hj _ _; simp at hj
  | cons p ps ih =>
    intro cs j hj hjc hpt
    cases cs with
    | nil => simp at hjc
    | cons c cs =>
      cases j with
      | zero => simp at hpt; simp [hpt]
      | succ j =>
        simp only [List.getD_cons_succ] at hpt ⊢
        exact ih cs j (by simpa using hj) (by simpa using hjc) hpt

/-- If every aligned entry holding the target is already collected, the
loop leaves the collected array unchanged. -/
theorem collectScan_id_of_all_collected (t : Char) (ps : List Char) :
    ∀ cs : List Bool, cs.length = ps.length →
      (∀ j, j < ps.length → ps.getD j ' ' = t → cs.getD j false = true) →
      List.zipWith (fun p c => if p = t then true else c) ps cs = cs := by
  induction ps with
  | nil =>
    intro cs h _
    have hnil : cs = [] := List.length_eq_zero.mp (by simpa using h)
    simp [hnil]
  | cons p ps ih =>
    intro cs h hall
    cases cs with
    | nil => simp at h
    | cons c cs =>
      simp only [List.length_cons, Nat.succ.injEq] at h
      have htail : ∀ j, j < ps.length → ps.getD j ' ' = t → cs.getD j false = true := by
        intro j hj hpt
        have := hall (j + 1) (by simpa using hj)
        simpa using this hpt
      have hhead : (if p = t then true else c) = c := by
        by_cases hp : p = t
        · have := hall 0 (by simp) (by simpa using hp)
          simp at this
          simp [hp, this]
        · simp [hp]
      rw [List.zipWith_cons_cons, hhead, ih cs h htail]

/-- If every aligned entry holding the target is already collected, nothing
is newly collectible. -/
theorem countNewly_eq_zero (t : Char) (ps : List Char) :
    ∀ cs : List Bool, cs.length = ps.length →
      (∀ j, j < ps.length → ps.getD j ' ' = t → cs.getD j false = true) →
      countNewly t ps cs = 0 := by
  induction ps with
  | nil => intro cs _ _; simp [countNewly]
  | cons p ps ih =>
    intro cs h hall
    cases cs with
    | nil => simp [countNewly]
    | cons c cs =>
      simp only [List.length_cons, Nat.succ.injEq] at h
      have htail : ∀ j, j < ps.length → ps.getD j ' ' = t → cs.getD j false = true := by
        intro j hj hpt
        have := hall (j + 1) (by simpa using hj)
        simpa using this hpt
      have hcond : ¬(p = t ∧ c = false) := by
        rintro ⟨hp, hc⟩
        have := hall 0 (by simp) (by simpa using hp)
        simp [hc] at this
      rw [countNewly_cons, if_neg hcond, ih cs h htail]

/-- The constructor's collected array: `true` exactly at the spaces. -/
theorem mkPuzzle_collectedPieces (P : List Char) :
    (mkPuzzle P).collectedPieces = P.map (fun p => if p = ' ' then true else false) := by
  show autoCollectSpaces P (List.replicate P.length false) = _
  induction P with
  | nil => rfl
  | cons p ps ih =>
    simp only [autoCollectSpaces, List.length_cons, List.replicate_succ,
      List.zipWith_cons_cons, List.map_cons] at ih ⊢
    exact congrArg _ ih

/-- The constructor keeps the phrase as the pieces array. -/
theorem mkPuzzle_pieces (P : List Char) : (mkPuzzle P).pieces = P := rfl

/-- `collectPiece` never changes the pieces array. -/
theorem collectPiece_pieces (pz : Puzzle) (index : Int) :
    (collectPiece pz index).1.pieces = pz.pieces := by
  unfold collectPiece
  split
  · rfl
  · split <;> rfl

/-- A sequence of `collectPiece` calls never changes the pieces array. -/
theorem applyCollects_pieces (ops : List Int) :
    ∀ pz : Puzzle, (applyCollects pz ops).pieces = pz.pieces := by
  induction ops with
  | nil => intro pz; rfl
  | cons i ops ih =>
    intro pz
    show (applyCollects (collectPiece pz i).1 ops).pieces = pz.pieces
    rw [ih, collectPiece_pieces]

/-- For an in-range index, `collectPiece` runs the collect loop on the
piece at that index. -/
theorem collectPiece_in_range (pz : Puzzle) (i : Nat) (hi : i < pz.pieces.length) :
    collectPiece pz (i : Int)
      = ({ pz with collectedPieces :=
            (collectScan (pz.pieces.getD i ' ') pz.pieces pz.collectedPieces).1 },
         (collectScan (pz.pieces.getD i ' ') pz.pieces pz.collectedPieces).2) := by
  have hcond : ¬((i : Int) < 0 ∨ (pz.pieces.length : Int) ≤ (i : Int)) := by
    push_neg
    exact ⟨Int.natCast_nonneg i, by exact_mod_cast hi⟩
  have hget : pz.pieces[((i : Int)).toNat]? = some (pz.pieces.getD i ' ') := by
    rw [Int.toNat_natCast, List.getElem?_eq_getElem hi, List.getD_eq_getElem _ _ hi]
  unfold collectPiece
  rw [if_neg hcond]
  simp only [hget]

/-- Lists of `collectedPieces` reconstructed with everything collected. -/
theorem all_map_true {α : Type} (l : List α) :
    ((l.map (fun _ => true)).all (fun c => c)) = true := by
  induction l with
  | nil => rfl
  | cons a l ih => simp [ih]

/-- C1: for every text-mode puzzle and in-range index `i`,
`collectPiece(i)` marks as collected every index `j` whose piece equals
`pieces[i]`; `getCollectedCount` grows by exactly the number of
previously-uncollected indices holding that character; and the returned
flag is `true` iff at least one index was newly marked (the count of
newly collectible indices is positive). -/
theorem collectPiece_collects_duplicates (pz : Puzzle) (i : Nat)
    (hlen : pz.collectedPieces.length = pz.pieces.length)
    (hi : i < pz.pieces.length) :
    (∀ j, j < pz.pieces.length → pz.pieces.getD j ' ' = pz.pieces.getD i ' ' →
        (collectPiece pz (i : Int)).1.collectedPieces.getD j false = true) ∧
    getCollectedCount (collectPiece pz (i : Int)).1
      = getCollectedCount pz + countNewly (pz.pieces.getD i ' ') pz.pieces pz.collectedPieces ∧
    ((collectPiece pz (i : Int)).2 = true
      ↔ 0 < countNewly (pz.pieces.getD i ' ') pz.pieces pz.collectedPieces) := by
  rw [collectPiece_in_range pz i hi]
  have hdrop : pz.collectedPieces.drop pz.pieces.length = [] :=
    List.drop_eq_nil_of_le (le_of_eq hlen)
  refine ⟨?_, ?_, ?_⟩
  · intro j hj hpt
    simp only [collectScan_fst, hdrop, List.append_nil]
    exact collectScan_marks _ pz.pieces pz.collectedPieces j hj (hlen ▸ hj) hpt
  · simp only [getCollectedCount, collectScan_fst, hdrop, List.append_nil]
    exact collectScan_count _ pz.pieces pz.collectedPieces hlen
  · simp [collectScan_snd]

/-- C1 witness: the theorem instantiated at the puzzle `"aba"` and
index `0`. -/
theorem collectPiece_collects_duplicates_witness :
    (mkPuzzle ['a', 'b', 'a']).collectedPieces.length
        = (mkPuzzle ['a', 'b', 'a']).pieces.length ∧
    0 < (mkPuzzle ['a', 'b', 'a']).pieces.length ∧
    ((∀ j, j < (mkPuzzle ['a', 'b', 'a']).pieces.length →
        (mkPuzzle ['a', 'b', 'a']).pieces.getD j ' '
          = (mkPuzzle ['a', 'b', 'a']).pieces.getD 0 ' ' →
        (collectPiece (mkPuzzle ['a', 'b', 'a']) ((0 : Nat) : Int)).1.collectedPieces.getD j false
          = true) ∧
    getCollectedCount (collectPiece (mkPuzzle ['a', 'b', 'a']) ((0 : Nat) : Int)).1
      = getCollectedCount (mkPuzzle ['a', 'b', 'a'])
        + countNewly ((mkPuzzle ['a', 'b', 'a']).pieces.getD 0 ' ')
            (mkPuzzle ['a', 'b', 'a']).pieces (mkPuzzle ['a', 'b', 'a']).collectedPieces ∧
    ((collectPiece (mkPuzzle ['a', 'b', 'a']) ((0 : Nat) : Int)).2 = true
      ↔ 0 < countNewly ((mkPuzzle ['a', 'b', 'a']).pieces.getD 0 ' ')
            (mkPuzzle ['a', 'b', 'a']).pieces (mkPuzzle ['a', 'b', 'a']).collectedPieces)) :=
  ⟨by decide, by decide,
    collectPiece_collects_duplicates (mkPuzzle ['a', 'b', 'a']) 0 (by decide) (by decide)⟩

/-- Completeness of a collected list matches absence of the placeholder in
the reconstruction, provided no piece is itself the placeholder. -/
theorem all_iff_no_placeholder (ps : List Char) :
    ∀ cs : List Bool, cs.length = ps.length → '_' ∉ ps →
      (cs.all (fun c => c) = true
        ↔ '_' ∉ List.zipWith (fun p c => if c then p else '_') ps cs) := by
  induction ps with
  | nil =>
    intro cs h _
    have hnil : cs = [] := List.length_eq_zero.mp (by simpa using h)
    simp [hnil]
  | cons p ps ih =>
    intro cs h hno
    cases cs with
    | nil => simp at h
    | cons c cs =>
      simp only [List.length_cons, Nat.succ.injEq] at h
      have hp : p ≠ '_' := fun hc => hno (hc ▸ List.mem_cons_self p ps)
      have htail : '_' ∉ ps := fun hc => hno (List.mem_cons_of_mem p hc)
      cases c
      · simp [List.zipWith_cons_cons]
      · simp only [List.zipWith_cons_cons, if_true, List.all_cons, Bool.true_and,
          List.mem_cons, ite_true]
        rw [ih cs h htail]
        constructor
        · intro hr hmem
          rcases hmem with hmem | hmem
          · exact hp hmem.symm
          · exact hr hmem
        · intro hr hmem
          exact hr (Or.inr hmem)

/-- C2 (amended): for every payload not containing the placeholder `'_'`
and every collection state, `isComplete()` is true iff the reconstructed
phrase contains no `'_'`. -/
theorem isComplete_iff_no_placeholder (pz : Puzzle)
    (hlen : pz.collectedPieces.length = pz.pieces.length)
    (hno : '_' ∉ pz.pieces) :
    pz.isComplete = true ↔ '_' ∉ getReconstructedPhrase pz :=
  all_iff_no_placeholder pz.pieces pz.collectedPieces hlen hno

/-- C2 witness: the amended equivalence instantiated at the half-collected
puzzle over `"ab"`. -/
theorem isComplete_iff_no_placeholder_witness :
    ((collectPiece (mkPuzzle ['a', 'b']) 0).1.collectedPieces.length
        = (collectPiece (mkPuzzle ['a', 'b']) 0).1.pieces.length) ∧
    ('_' ∉ (collectPiece (mkPuzzle ['a', 'b']) 0).1.pieces) ∧
    ((collectPiece (mkPuzzle ['a', 'b']) 0).1.isComplete = true
      ↔ '_' ∉ getReconstructedPhrase (collectPiece (mkPuzzle ['a', 'b']) 0).1) :=
  ⟨by decide, by decide,
    isComplete_iff_no_placeholder (collectPiece (mkPuzzle ['a', 'b']) 0).1
      (by decide) (by decide)⟩

/-- C2 counterexample: for the payload `"_"` (one placeholder character),
after collecting piece 0 the puzzle is complete yet the reconstructed
phrase still contains `'_'`, so the claimed equivalence fails as stated. -/
theorem isComplete_placeholder_payload_counterexample :
    (collectPiece (mkPuzzle ['_']) 0).1.isComplete = true ∧
    '_' ∈ getReconstructedPhrase (collectPiece (mkPuzzle ['_']) 0).1 := by
  decide

/-- C4 (amended): immediately after construction the reconstructed phrase
is the payload with every non-space character replaced by `'_'` and every
space `' '` shown as-is. -/
theorem reconstruct_fresh (P : List Char) :
    getReconstructedPhrase (mkPuzzle P)
      = P.map (fun c => if c = ' ' then c else '_') := by
  unfold getReconstructedPhrase
  rw [mkPuzzle_pieces, mkPuzzle_collectedPieces]
  induction P with
  | nil => rfl
  | cons p ps ih =>
    simp only [List.map_cons, List.zipWith_cons_cons]
    rw [ih]
    by_cases hp : p = ' ' <;> simp [hp]

/-- C4 counterexample: the tab character is whitespace but is not `' '`;
the code shows it as the placeholder, not as-is, so the claim fails for
the payload `"\t"`. -/
theorem reconstruct_whitespace_counterexample :
    getReconstructedPhrase (mkPuzzle ['\t']) = ['_'] ∧
    reconstructWhitespaceSpec ['\t'] = ['\t'] ∧
    getReconstructedPhrase (mkPuzzle ['\t']) ≠ reconstructWhitespaceSpec ['\t'] := by
  decide

/-- C6 (amended): after any sequence of `collectPiece` calls,
`resetCollected` followed by `getReconstructedPhrase` yields exactly the
fresh construction's string; the reset state has every non-space entry
uncollected and every space `' '` entry collected. -/
theorem reset_reconstruct_eq_fresh (P : List Char) (ops : List Int) :
    getReconstructedPhrase (resetCollected (applyCollects (mkPuzzle P) ops))
        = getReconstructedPhrase (mkPuzzle P) ∧
    (resetCollected (applyCollects (mkPuzzle P) ops)).collectedPieces
        = P.map (fun p => if p = ' ' then true else false) := by
  have hp : (applyCollects (mkPuzzle P) ops).pieces = P := by
    rw [applyCollects_pieces, mkPuzzle_pieces]
  constructor
  · unfold getReconstructedPhrase resetCollected
    simp only [hp, mkPuzzle_pieces, mkPuzzle_collectedPieces]
  · unfold resetCollected
    simp only [hp]

/-- C6 counterexample: the payload `"\t"` contains a whitespace entry that
is collected (after collecting index 0) but does not remain collected
across `resetCollected`, contradicting the claim's "whitespace entries
remain collected and shown as whitespace". -/
theorem reset_whitespace_counterexample :
    (collectPiece (mkPuzzle ['\t']) 0).1.collectedPieces = [true] ∧
    Char.isWhitespace '\t' = true ∧
    (resetCollected (collectPiece (mkPuzzle ['\t']) 0).1).collectedPieces = [false] ∧
    getReconstructedPhrase (resetCollected (collectPiece (mkPuzzle ['\t']) 0).1) = ['_'] := by
  decide

/-- C10 (amended): `collectPiece` with an out-of-range index returns
`false` and leaves the state unchanged; and for an in-range index all of
whose equal-valued indices are already collected (which covers every
already-collected index in the states the game itself produces, where
equal characters are always collected together), it also returns `false`
and leaves the state unchanged. -/
theorem collectPiece_noop (pz : Puzzle) (index : Int)
    (hlen : pz.collectedPieces.length = pz.pieces.length) :
    ((index < 0 ∨ (pz.pieces.length : Int) ≤ index) → collectPiece pz index = (pz, false)) ∧
    (∀ i : Nat, index = (i : Int) → i < pz.pieces.length →
      (∀ j, j < pz.pieces.length → pz.pieces.getD j ' ' = pz.pieces.getD i ' ' →
          pz.collectedPieces.getD j false = true) →
      collectPiece pz index = (pz, false)) := by
  constructor
  · intro h
    unfold collectPiece
    rw [if_pos h]
  · intro i hidx hi hall
    subst hidx
    rw [collectPiece_in_range pz i hi]
    have hdrop : pz.collectedPieces.drop pz.pieces.length = [] :=
      List.drop_eq_nil_of_le (le_of_eq hlen)
    have hfst : (collectScan (pz.pieces.getD i ' ') pz.pieces pz.collectedPieces).1
        = pz.collectedPieces := by
      rw [collectScan_fst, hdrop, List.append_nil]
      exact collectScan_id_of_all_collected _ pz.pieces pz.collectedPieces hlen hall
    have hsnd : (collectScan (pz.pieces.getD i ' ') pz.pieces pz.collectedPieces).2 = false := by
      rw [collectScan_snd,
        countNewly_eq_zero (pz.pieces.getD i ' ') pz.pieces pz.collectedPieces hlen hall]
      rfl
    rw [hfst, hsnd]

/-- C10 witness: out-of-range index `-1` on the puzzle `"ab"`, and the
already-collected index `0` on the puzzle `"ab"` after collecting `'a'`,
are both no-ops returning `false`. -/
theorem collectPiece_noop_witness :
    collectPiece (mkPuzzle ['a', 'b']) (-1) = (mkPuzzle ['a', 'b'], false) ∧
    collectPiece (collectPiece (mkPuzzle ['a', 'b']) 0).1 ((0 : Nat) : Int)
      = ((collectPiece (mkPuzzle ['a', 'b']) 0).1, false) :=
  ⟨(collectPiece_noop (mkPuzzle ['a', 'b']) (-1) (by decide)).1 (Or.inl (by decide)),
   (collectPiece_noop (collectPiece (mkPuzzle ['a', 'b']) 0).1 ((0 : Nat) : Int)
      (by decide)).2 0 rfl (by decide) (by decide)⟩

/-- C10 counterexample: on a state where index 0 is already marked
collected but its duplicate is not, `collectPiece(0)` returns `true` and
changes the collected state, contradicting the claim's "returns false and
leaves the collected state entirely unchanged". -/
theorem collectPiece_already_collected_counterexample :
    pzNonuniform.collectedPieces.getD 0 false = true ∧
    (collectPiece pzNonuniform 0).2 = true ∧
    (collectPiece pzNonuniform 0).1.collectedPieces = [true, true] := by
  decide

/-- C9 (amended): trimming the guess first, a nonempty trimmed guess that
matches the original payload case-insensitively marks every piece
collected (so `isComplete()` holds and the victory transition fires),
and a non-matching guess changes no puzzle state. -/
theorem submitGuess_spec (pz : Puzzle) (input : List Char)
    (hne : jsTrim input ≠ []) :
    (toLowerStr (jsTrim input) = toLowerStr pz.originalPhrase →
      (submitGuess pz input).puzzle.collectedPieces = pz.pieces.map (fun _ => true) ∧
      (submitGuess pz input).puzzle.isComplete = true ∧
      (submitGuess pz input).victory = true) ∧
    (toLowerStr (jsTrim input) ≠ toLowerStr pz.originalPhrase →
      (submitGuess pz input).puzzle = pz ∧ (submitGuess pz input).victory = false) := by
  constructor
  · intro hmatch
    unfold submitGuess
    rw [if_neg hne, if_pos hmatch]
    exact ⟨rfl, all_map_true pz.pieces, rfl⟩
  · intro hmiss
    unfold submitGuess
    rw [if_neg hne, if_neg hmiss]
    exact ⟨rfl, rfl⟩

/-- C9 witness: the correct case-insensitive guess `"AB"` against the
payload `"ab"` (with nothing collected yet) completes the puzzle and
triggers victory. -/
theorem submitGuess_spec_witness :
    jsTrim ['A', 'B'] ≠ [] ∧
    ((submitGuess (mkPuzzle ['a', 'b']) ['A', 'B']).puzzle.collectedPieces
        = (mkPuzzle ['a', 'b']).pieces.map (fun _ => true) ∧
      (submitGuess (mkPuzzle ['a', 'b']) ['A', 'B']).puzzle.isComplete = true ∧
      (submitGuess (mkPuzzle ['a', 'b']) ['A', 'B']).victory = true) :=
  ⟨by decide,
    (submitGuess_spec (mkPuzzle ['a', 'b']) ['A', 'B'] (by decide)).1 (by decide)⟩

/-- C9 counterexample: for the payload `" a"` (leading space), the guess
whose text is exactly the payload — hence equal to it under
case-insensitive comparison — does not trigger victory and changes
nothing, because the code trims the guess before comparing. -/
theorem submitGuess_untrimmed_payload_counterexample :
    (mkPuzzle [' ', 'a']).originalPhrase = [' ', 'a'] ∧
    toLowerStr [' ', 'a'] = toLowerStr (mkPuzzle [' ', 'a']).originalPhrase ∧
    (submitGuess (mkPuzzle [' ', 'a']) [' ', 'a']).victory = false ∧
    (submitGuess (mkPuzzle [' ', 'a']) [' ', 'a']).puzzle = mkPuzzle [' ', 'a'] ∧
    (mkPuzzle [' ', 'a']).isComplete = false := by
  decide

/-- Splitting a bounded quantifier over a cons cell. -/
theorem forall_lt_succ_getD (p x : Char) (ps : List Char) (j : Nat) :
    (∀ k, k < j + 1 → (p :: ps).getD k ' ' ≠ x)
      ↔ p ≠ x ∧ ∀ k, k < j → ps.getD k ' ' ≠ x := by
  constructor
  · intro h
    refine ⟨by simpa using h 0 (Nat.succ_pos j), fun k hk => ?_⟩
    simpa using h (k + 1) (Nat.succ_lt_succ hk)
  · rintro ⟨h0, h⟩ k hk
    cases k with
    | zero => simpa using h0
    | succ k => simpa using h k (Nat.lt_of_succ_lt_succ hk)

/-- The scan loop of `getUniqueNonSpaceIndices` equals a first-occurrence
filter, relative to the already-seen character set and the index offset. -/
theorem uniqueScan_eq (P : List Char) :
    ∀ (seen : List Char) (i : Nat),
      uniqueScan seen i P
        = ((List.range P.length).filter
            (fun j => decide (P.getD j ' ' ≠ ' ' ∧ P.getD j ' ' ∉ seen ∧
                ∀ k, k < j → P.getD k ' ' ≠ P.getD j ' '))).map (fun j => j + i) := by
  induction P with
  | nil => intro seen i; rfl
  | cons p ps ih =>
    intro seen i
    by_cases hp : p ≠ ' ' ∧ p ∉ seen
    · have hl : uniqueScan seen i (p :: ps) = i :: uniqueScan (p :: seen) (i + 1) ps := by
        simp [uniqueScan, hp.1, hp.2]
      have hpos : (0 :: List.map Nat.succ (List.range ps.length)).filter
          (fun j => decide ((p :: ps).getD j ' ' ≠ ' ' ∧ (p :: ps).getD j ' ' ∉ seen ∧
              ∀ k, k < j → (p :: ps).getD k ' ' ≠ (p :: ps).getD j ' '))
          = 0 :: (List.map Nat.succ (List.range ps.length)).filter
              (fun j => decide ((p :: ps).getD j ' ' ≠ ' ' ∧ (p :: ps).getD j ' ' ∉ seen ∧
                  ∀ k, k < j → (p :: ps).getD k ' ' ≠ (p :: ps).getD j ' ')) :=
        List.filter_cons_of_pos (by simp [hp.1, hp.2])
      rw [hl, ih (p :: seen) (i + 1), List.length_cons, List.range_succ_eq_map,
        hpos, List.filter_map, List.map_cons, List.map_map]
      have hq : ((fun j => decide ((p :: ps).getD j ' ' ≠ ' ' ∧ (p :: ps).getD j ' ' ∉ seen ∧
            ∀ k, k < j → (p :: ps).getD k ' ' ≠ (p :: ps).getD j ' ')) ∘ Nat.succ)
          = (fun j => decide (ps.getD j ' ' ≠ ' ' ∧ ps.getD j ' ' ∉ p :: seen ∧
            ∀ k, k < j → ps.getD k ' ' ≠ ps.getD j ' ')) := by
        funext j
        simp only [Function.comp_apply, List.getD_cons_succ, forall_lt_succ_getD,
          List.mem_cons, not_or, decide_eq_decide]
        constructor
        · rintro ⟨h1, h2, h3, h4⟩
          exact ⟨h1, ⟨fun he => h3 he.symm, h2⟩, h4⟩
        · rintro ⟨h1, ⟨h2, h3⟩, h4⟩
          exact ⟨h1, h3, fun he => h2 he.symm, h4⟩
      rw [hq]
      have hfun : (fun j => j + 1 + i) = (fun j : Nat => j + (i + 1)) := by
        funext j
        omega
      simp only [Nat.zero_add, Function.comp_def, hfun]
    · have hl : uniqueScan seen i (p :: ps) = uniqueScan seen (i + 1) ps := by
        simp only [uniqueScan, if_neg hp]
      have hneg : (0 :: List.map Nat.succ (List.range ps.length)).filter
          (fun j => decide ((p :: ps).getD j ' ' ≠ ' ' ∧ (p :: ps).getD j ' ' ∉ seen ∧
              ∀ k, k < j → (p :: ps).getD k ' ' ≠ (p :: ps).getD j ' '))
          = (List.map Nat.succ (List.range ps.length)).filter
              (fun j => decide ((p :: ps).getD j ' ' ≠ ' ' ∧ (p :: ps).getD j ' ' ∉ seen ∧
                  ∀ k, k < j → (p :: ps).getD k ' ' ≠ (p :: ps).getD j ' ')) :=
        List.filter_cons_of_neg (by
          simp only [List.getD_cons_zero, decide_eq_true_eq]
          rintro ⟨h1, h2, _⟩
          exact hp ⟨h1, h2⟩)
      rw [hl, ih seen (i + 1), List.length_cons, List.range_succ_eq_map,
        hneg, List.filter_map, List.map_map]
      have hps : p = ' ' ∨ p ∈ seen := by
        rcases not_and_or.mp hp with h | h
        · exact Or.inl (not_not.mp h)
        · exact Or.inr (not_not.mp h)
      have hq : ((fun j => decide ((p :: ps).getD j ' ' ≠ ' ' ∧ (p :: ps).getD j ' ' ∉ seen ∧
            ∀ k, k < j → (p :: ps).getD k ' ' ≠ (p :: ps).getD j ' ')) ∘ Nat.succ)
          = (fun j => decide (ps.getD j ' ' ≠ ' ' ∧ ps.getD j ' ' ∉ seen ∧
            ∀ k, k < j → ps.getD k ' ' ≠ ps.getD j ' ')) := by
        funext j
        simp only [Function.comp_apply, List.getD_cons_succ, forall_lt_succ_getD,
          decide_eq_decide]
        constructor
        · rintro ⟨h1, h2, _, h4⟩
          exact ⟨h1, h2, h4⟩
        · rintro ⟨h1, h2, h4⟩
          refine ⟨h1, h2, ?_, h4⟩
          rcases hps with hsp | hin
          · exact fun he => h1 (he ▸ hsp)
          · exact fun he => h2 (he ▸ hin)
      rw [hq]
      have hfun : (fun j => j + 1 + i) = (fun j : Nat => j + (i + 1)) := by
        funext j
        omega
      simp only [Function.comp_def, hfun]

/-- C5 (amended): `getUniqueNonSpaceIndices` returns exactly one
representative index per distinct non-space character value, in
first-occurrence order (formalised as equality with the first-occurrence
filter); in particular for the payload `"AB BA"` it returns the 2 indices
`[0, 1]`, covering `'A'` and `'B'`. -/
theorem getUniqueNonSpaceIndices_spec (P : List Char) :
    getUniqueNonSpaceIndices (mkPuzzle P) = firstOccurNonSpaceIndices P ∧
    getUniqueNonSpaceIndices (mkPuzzle ['A', 'B', ' ', 'B', 'A']) = [0, 1] ∧
    (mkPuzzle ['A', 'B', ' ', 'B', 'A']).pieces.getD 0 ' ' = 'A' ∧
    (mkPuzzle ['A', 'B', ' ', 'B', 'A']).pieces.getD 1 ' ' = 'B' := by
  refine ⟨?_, by decide, by decide, by decide⟩
  show uniqueScan [] 0 (mkPuzzle P).pieces = _
  rw [mkPuzzle_pieces, uniqueScan_eq]
  have hq : (fun j => decide (P.getD j ' ' ≠ ' ' ∧ P.getD j ' ' ∉ ([] : List Char) ∧
        ∀ k, k < j → P.getD k ' ' ≠ P.getD j ' '))
      = (fun j => decide (P.getD j ' ' ≠ ' ' ∧ ∀ k, k < j → P.getD k ' ' ≠ P.getD j ' ')) := by
    funext j
    simp
  rw [hq]
  simp [firstOccurNonSpaceIndices]

/-- C5 counterexample: for the payload `"\t"` the code returns a
representative index for the tab character, although tab is whitespace;
the claim's "one representative per distinct non-whitespace value" yields
no index at all, so the claim fails as stated. -/
theorem uniqueIndices_whitespace_counterexample :
    getUniqueNonSpaceIndices (mkPuzzle ['\t']) = [0] ∧
    firstOccurNonWhitespaceIndices ['\t'] = [] ∧
    getUniqueNonSpaceIndices (mkPuzzle ['\t']) ≠ firstOccurNonWhitespaceIndices ['\t'] := by
  decide

/-! ### Avatar physics -/

/-- After any single `update`, the vertical position is clamped into
`[0, canvasHeight - height]` (for a canvas at least as tall as the
player). -/
theorem update_y_mem_range (p : Player) (ch : ℚ) (hch : playerHeight ≤ ch) :
    0 ≤ (p.update ch).y ∧ (p.update ch).y ≤ ch - playerHeight := by
  simp only [Player.update]
  split_ifs with h1 h2 h3 <;> dsimp only <;> constructor <;> linarith [hch]

/-- Whenever a clamp fires inside `update` (the raw new position is below
the top or its bottom edge passes the canvas bottom), the resulting
vertical velocity is zero. -/
theorem update_clamp_zeroes_velocity (p : Player) (ch : ℚ)
    (h : p.y + (p.velocityY + p.gravity) < 0 ∨
         ch < p.y + (p.velocityY + p.gravity) + playerHeight) :
    (p.update ch).velocityY = 0 := by
  simp only [Player.update]
  split_ifs with h1 h2 h3
  · rfl
  · rfl
  · rfl
  · rcases h with ha | hb
    · exact absurd ha h1
    · exact absurd (by linarith : p.y + (p.velocityY + p.gravity) + playerHeight > ch) h3

/-- C3: with the canvas at least as tall as the player, the per-tick
ordering of `update()` in `src/world.js` — `player.update(canvasHeight)`
followed by the `player.isOutOfBounds(canvasHeight)` death check inside
`checkCollisions()` — always finds the player in bounds, so the
out-of-bounds death branch can never trigger game over. -/
theorem outOfBounds_never_after_update (p : Player) (ch : ℚ)
    (hch : playerHeight ≤ ch) :
    outOfBoundsAfterUpdate p ch = false := by
  have h := update_y_mem_range p ch hch
  unfold outOfBoundsAfterUpdate Player.isOutOfBounds
  simp only [Bool.or_eq_false_iff, decide_eq_false_iff_not, not_lt]
  exact ⟨h.1, by linarith [h.2]⟩

/-- C3 witness: a player mid-screen with the game's default gravity on a
600-pixel canvas. -/
theorem outOfBounds_never_after_update_witness :
    playerHeight ≤ (600 : ℚ) ∧
    outOfBoundsAfterUpdate
      { y := 300, velocityY := 0, gravity := 3 / 5, flapStrength := -10 } 600 = false :=
  ⟨by norm_num [playerHeight],
   outOfBounds_never_after_update
     { y := 300, velocityY := 0, gravity := 3 / 5, flapStrength := -10 } 600
     (by norm_num [playerHeight])⟩

/-- With a non-negative position and velocity and positive gravity, the
top clamp never fires, so `update` moves the player to the raw new
position capped at the bottom of the canvas, keeps the velocity
non-negative, and preserves the gravity. -/
theorem update_y_min (p : Player) (ch : ℚ) (h0 : 0 ≤ p.y) (hv : 0 ≤ p.velocityY)
    (hg : 0 < p.gravity) :
    (p.update ch).y = min (p.y + (p.velocityY + p.gravity)) (ch - playerHeight) ∧
    0 ≤ (p.update ch).velocityY ∧
    (p.update ch).gravity = p.gravity ∧
    (p.update ch).flapStrength = p.flapStrength := by
  have h1 : ¬(p.y + (p.velocityY + p.gravity) < 0) := by linarith
  simp only [Player.update]
  rw [if_neg h1]
  by_cases h2 : p.y + (p.velocityY + p.gravity) + playerHeight > ch
  · rw [if_pos h2]
    dsimp only
    exact ⟨(min_eq_right (by linarith)).symm, le_refl 0, rfl, rfl⟩
  · rw [if_neg h2]
    dsimp only
    exact ⟨(min_eq_left (by linarith)).symm, by linarith, rfl, rfl⟩

/-- Iterated flap-free updates keep position and velocity non-negative,
preserve gravity, and drive the position at least at gravity speed toward
the canvas bottom. -/
theorem updateN_bounds (p : Player) (ch : ℚ) (hg : 0 < p.gravity)
    (h0 : 0 ≤ p.y) (hv0 : 0 ≤ p.velocityY) (hch : playerHeight ≤ ch) :
    ∀ n : Nat,
      0 ≤ (updateN p ch n).y ∧
      0 ≤ (updateN p ch n).velocityY ∧
      (updateN p ch n).gravity = p.gravity ∧
      min (p.y + (n : ℚ) * p.gravity) (ch - playerHeight) ≤ (updateN p ch n).y := by
  intro n
  induction n with
  | zero =>
    refine ⟨h0, hv0, rfl, ?_⟩
    simp only [updateN, Nat.cast_zero, zero_mul, add_zero]
    exact min_le_left _ _
  | succ n ih =>
    obtain ⟨hq0, hqv, hqg, hqmin⟩ := ih
    have hqg' : 0 < (updateN p ch n).gravity := hqg ▸ hg
    have hstep := update_y_min (updateN p ch n) ch hq0 hqv hqg'
    have hy : (updateN p ch (n + 1)).y
        = min ((updateN p ch n).y + ((updateN p ch n).velocityY + (updateN p ch n).gravity))
            (ch - playerHeight) := hstep.1
    refine ⟨?_, hstep.2.1, by rw [show updateN p ch (n + 1) = (updateN p ch n).update ch from rfl,
        hstep.2.2.1, hqg], ?_⟩
    · rw [hy]
      exact le_min (by linarith) (by linarith)
    · rw [hy]
      refine le_min ?_ (min_le_right _ _)
      push_cast
      rcases le_total (p.y + (n : ℚ) * p.gravity) (ch - playerHeight) with hc | hc
      · have hql : p.y + (n : ℚ) * p.gravity ≤ (updateN p ch n).y := by
          rw [min_eq_left hc] at hqmin
          exact hqmin
        calc min (p.y + ((n : ℚ) + 1) * p.gravity) (ch - playerHeight)
            ≤ p.y + ((n : ℚ) + 1) * p.gravity := min_le_left _ _
          _ ≤ (updateN p ch n).y + ((updateN p ch n).velocityY + (updateN p ch n).gravity) := by
              rw [hqg]
              nlinarith
      · have hql : ch - playerHeight ≤ (updateN p ch n).y := by
          rw [min_eq_right hc] at hqmin
          exact hqmin
        calc min (p.y + ((n : ℚ) + 1) * p.gravity) (ch - playerHeight)
            ≤ ch - playerHeight := min_le_right _ _
          _ ≤ (updateN p ch n).y + ((updateN p ch n).velocityY + (updateN p ch n).gravity) := by
              rw [hqg]
              linarith

/-- C8: for every canvas at least the player's height and every
interleaving of `update`/`flap` calls from the initial mid-height player,
the position after each `update` lies in `[0, canvasHeight - height]`;
whenever a clamp fires the velocity is zeroed; and with zero flaps the
position reaches `canvasHeight - height` after finitely many updates and
stays there on every later update. -/
theorem player_bounds_and_terminal (ch g fs : ℚ)
    (hg : 0 < g) (hch : playerHeight ≤ ch) :
    (∀ acts : List PlayerAct,
        0 ≤ (runActs (initialPlayer ch g fs) ch (acts ++ [PlayerAct.tick])).y ∧
        (runActs (initialPlayer ch g fs) ch (acts ++ [PlayerAct.tick])).y
          ≤ ch - playerHeight) ∧
    (∀ p : Player,
        (p.y + (p.velocityY + p.gravity) < 0 ∨
            ch < p.y + (p.velocityY + p.gravity) + playerHeight) →
        (p.update ch).velocityY = 0) ∧
    (∃ n : Nat, ∀ m : Nat, n ≤ m →
        (updateN (initialPlayer ch g fs) ch m).y = ch - playerHeight) := by
  refine ⟨?_, fun p h => update_clamp_zeroes_velocity p ch h, ?_⟩
  · intro acts
    have : runActs (initialPlayer ch g fs) ch (acts ++ [PlayerAct.tick])
        = (runActs (initialPlayer ch g fs) ch acts).update ch := by
      simp [runActs, List.foldl_append]
    rw [this]
    exact update_y_mem_range _ ch hch
  · obtain ⟨N, hN⟩ := exists_nat_gt ((ch - playerHeight - ch / 2) / g)
    have hinit0 : 0 ≤ (initialPlayer ch g fs).y := by
      show 0 ≤ ch / 2
      have : (0 : ℚ) < playerHeight := by norm_num [playerHeight]
      linarith
    have hinitv : 0 ≤ (initialPlayer ch g fs).velocityY := le_refl 0
    have hNg : ch - playerHeight - ch / 2 < (N : ℚ) * g := by
      rw [div_lt_iff₀ hg] at hN
      exact hN
    refine ⟨N + 1, fun m hm => ?_⟩
    have hbounds := updateN_bounds (initialPlayer ch g fs) ch hg hinit0 hinitv hch m
    have hlow : ch - playerHeight ≤ (updateN (initialPlayer ch g fs) ch m).y := by
      have hmg : (N : ℚ) * g ≤ (m : ℚ) * g := by
        have : (N : ℚ) ≤ (m : ℚ) := by
          exact_mod_cast Nat.le_of_succ_le hm
        exact mul_le_mul_of_nonneg_right this (le_of_lt hg)
      have harg : ch - playerHeight ≤ ch / 2 + (m : ℚ) * g := by linarith
      have := hbounds.2.2.2
      simp only [initialPlayer] at this
      rw [min_eq_right harg] at this
      exact this
    have hhigh : (updateN (initialPlayer ch g fs) ch m).y ≤ ch - playerHeight := by
      cases m with
      | zero => omega
      | succ k =>
        exact (update_y_mem_range (updateN (initialPlayer ch g fs) ch k) ch hch).2
    linarith

/-- C8 witness: the theorem instantiated at the default configuration
(gravity `0.6`, flap strength `-10`) on a 600-pixel canvas. -/
theorem player_bounds_and_terminal_witness :
    (0 : ℚ) < 3 / 5 ∧ playerHeight ≤ (600 : ℚ) ∧
    ((∀ acts : List PlayerAct,
        0 ≤ (runActs (initialPlayer 600 (3 / 5) (-10)) 600 (acts ++ [PlayerAct.tick])).y ∧
        (runActs (initialPlayer 600 (3 / 5) (-10)) 600 (acts ++ [PlayerAct.tick])).y
          ≤ 600 - playerHeight) ∧
    (∀ p : Player,
        (p.y + (p.velocityY + p.gravity) < 0 ∨
            (600 : ℚ) < p.y + (p.velocityY + p.gravity) + playerHeight) →
        (p.update 600).velocityY = 0) ∧
    (∃ n : Nat, ∀ m : Nat, n ≤ m →
        (updateN (initialPlayer 600 (3 / 5) (-10)) 600 m).y = 600 - playerHeight)) :=
  ⟨by norm_num, by norm_num [playerHeight],
   player_bounds_and_terminal 600 (3 / 5) (-10) (by norm_num) (by norm_num [playerHeight])⟩

/-- C7 (amended): for every non-asteroid-themed obstacle, `collidesWith`
is true iff the box horizontally overlaps `[x, x + width]` and its top is
above `topHeight` or its bottom below `bottomStart`; a box vertically
inside the gap never collides; and the scenario `gapY=200, gapSize=150`
gives `topHeight=125`, `bottomStart=275`, with the box `{y:100,height:20}`
colliding and `{y:150,height:20}` not. -/
theorem collidesWith_iff (x ch gy gs : ℚ) (b box : Bounds)
    (hb1 : (mkObstacle x ch gy gs false).topHeight ≤ box.y)
    (hb2 : box.y + box.height ≤ (mkObstacle x ch gy gs false).bottomY) :
    (collidesWith (mkObstacle x ch gy gs false) b = true ↔
      (b.x + b.width > x ∧ b.x < x + 60) ∧
        (b.y < gy - gs / 2 ∨ b.y + b.height > gy + gs / 2)) ∧
    collidesWith (mkObstacle x ch gy gs false) box = false ∧
    (mkObstacle 100 600 200 150 false).topHeight = 125 ∧
    (mkObstacle 100 600 200 150 false).bottomY = 275 ∧
    collidesWith (mkObstacle 100 600 200 150 false)
      { x := 100, y := 100, width := 20, height := 20 } = true ∧
    collidesWith (mkObstacle 100 600 200 150 false)
      { x := 100, y := 150, width := 20, height := 20 } = false := by
  simp only [mkObstacle] at hb1 hb2
  refine ⟨?_, ?_, by norm_num [mkObstacle], by norm_num [mkObstacle],
    by norm_num [collidesWith, mkObstacle], by norm_num [collidesWith, mkObstacle]⟩
  · unfold collidesWith mkObstacle
    by_cases hov : b.x + b.width > x ∧ b.x < x + 60
    · rw [if_pos hov]
      simp [hov]
    · rw [if_neg hov]
      simp [hov]
  · unfold collidesWith mkObstacle
    by_cases hov : box.x + box.width > x ∧ box.x < x + 60
    · rw [if_pos hov, if_neg Bool.false_ne_true]
      simp only [Bool.or_eq_false_iff, decide_eq_false_iff_not, not_lt]
      exact ⟨hb1, hb2⟩
    · rw [if_neg hov]

/-- C7 witness: the amended equivalence instantiated at an obstacle with
`gapY=200, gapSize=150` and a box lying fully inside the gap. -/
theorem collidesWith_iff_witness :
    collidesWith (mkObstacle 100 600 200 150 false)
      { x := 200, y := 130, width := 20, height := 10 } = false :=
  (collidesWith_iff 100 600 200 150 { x := 0, y := 0, width := 10, height := 10 }
    { x := 200, y := 130, width := 20, height := 10 }
    (by norm_num [mkObstacle]) (by norm_num [mkObstacle])).2.1

/-- C7 counterexample: an asteroid-themed obstacle with the same geometry
does not collide with a horizontally-overlapping box whose top is above
`topHeight`, because the asteroid branch shrinks the collision columns by
`30 + asteroidSize`; so the claimed equivalence fails for that obstacle. -/
theorem collidesWith_asteroid_counterexample :
    claimCollides (mkObstacle 100 600 200 150 true)
      { x := 100, y := 100, width := 20, height := 20 } ∧
    collidesWith (mkObstacle 100 600 200 150 true)
      { x := 100, y := 100, width := 20, height := 20 } = false := by
  constructor
  · norm_num [claimCollides, mkObstacle]
  · norm_num [collidesWith, mkObstacle]

